import Mathlib

/-!
Verification development for the `teachers-gitlab` batch-operations tool
(`src/matfyz/gitlab/teachers_gitlab.py`).  The Python source is shallowly
embedded below: each embedded definition mirrors one function (or one loop
body) of the source, with the remote GitLab service modelled as explicit
state or as an oracle function, and Python exceptions modelled with
`Except` / explicit error flags.
-/

namespace TeachersGitlab

/-! ## Basic data model

An `Entry` is one row of the CSV input: a mapping from column name to
string value (`csv.DictReader` produces dictionaries; we use association
lists with lookup-first semantics). -/

abbrev Entry := List (String × String)

/-- A remote GitLab project handle (only the field the embedded code uses). -/
structure Project where
  path_with_namespace : String
deriving DecidableEq, Repr

/-- A remote GitLab user handle. -/
structure User where
  username : String
deriving DecidableEq, Repr

/-- A commit handle (`CommitMock` in the source also carries only `id`). -/
structure Commit where
  id : String
deriving DecidableEq, Repr

/-- `gitlab.const.AccessLevel` of python-gitlab: the ordered access-level
enumeration used by all reconciliation code. -/
inductive AccessLevel where
  | NO_ACCESS
  | MINIMAL_ACCESS
  | GUEST
  | REPORTER
  | DEVELOPER
  | MAINTAINER
  | OWNER
  | ADMIN
deriving DecidableEq, Repr

/-! ## Template expansion (`str.format`)

The source expands templates with Python `str.format(**entry)` (and, for
commit messages, `format(GL=extras, **entry)` / `format(commit=c, **entry)`).
We model a parsed format string as a list of items and the keyword
dictionary as an association list of `FmtValue`s. -/

/-- A value passed as a `str.format` keyword: a plain string (an entry
column), a dictionary (the `GL` extras namespace, indexed as `GL[key]`), or
an object with attributes (the `commit` object, accessed as `commit.id`). -/
inductive FmtValue where
  | str (s : String)
  | dict (entries : List (String × String))
  | obj (attrs : List (String × String))
deriving DecidableEq, Repr

/-- One piece of a parsed format string. -/
inductive TItem where
  | lit (s : String)
  | field (name : String)
  | fieldIndex (name index : String)
  | fieldAttr (name attr : String)
deriving DecidableEq, Repr

abbrev Template := List TItem

/-- Python exceptions that `str.format` (or the keyword-building call
itself) can raise in the embedded code paths. -/
inductive FmtError where
  | keyError (name : String)
  | attributeError (name : String)
  | typeError (msg : String)
deriving DecidableEq, Repr

/-- Python dict repr of an entry, used in one diagnostic message. -/
def reprEntry (e : Entry) : String :=
  "\x7b" ++ String.intercalate ", " (e.map fun kv => kv.1 ++ ": " ++ kv.2) ++ "\x7d"

/-- Render one format item against the keyword dictionary, following
Python `str.format` semantics on the shapes that occur in the source. -/
def renderItem (kwargs : List (String × FmtValue)) : TItem → Except FmtError String
  | TItem.lit s => Except.ok s
  | TItem.field name =>
    match kwargs.lookup name with
    | none => Except.error (FmtError.keyError name)
    | some (FmtValue.str s) => Except.ok s
    | some (FmtValue.dict d) => Except.ok (reprEntry d)
    | some (FmtValue.obj a) => Except.ok (reprEntry a)
  | TItem.fieldIndex name index =>
    match kwargs.lookup name with
    | none => Except.error (FmtError.keyError name)
    | some (FmtValue.dict d) =>
      match d.lookup index with
      | some v => Except.ok v
      | none => Except.error (FmtError.keyError index)
    | some _ => Except.error (FmtError.typeError "indices must be integers")
  | TItem.fieldAttr name attr =>
    match kwargs.lookup name with
    | none => Except.error (FmtError.keyError name)
    | some (FmtValue.obj attrs) =>
      match attrs.lookup attr with
      | some v => Except.ok v
      | none => Except.error (FmtError.attributeError attr)
    | some _ => Except.error (FmtError.attributeError attr)

/-- `template.format(**kwargs)`: concatenate the rendered items, failing on
the first item that raises. -/
def expandTemplate (tmpl : Template) (kwargs : List (String × FmtValue)) :
    Except FmtError String :=
  match tmpl with
  | [] => Except.ok ""
  | item :: rest =>
    match renderItem kwargs item with
    | Except.error e => Except.error e
    | Except.ok s =>
      match expandTemplate rest kwargs with
      | Except.error e => Except.error e
      | Except.ok t => Except.ok (s ++ t)

/-- The keyword dictionary built by `format(**entry)`. -/
def entryKwargs (e : Entry) : List (String × FmtValue) :=
  e.map fun kv => (kv.1, FmtValue.str kv.2)

/-- `template.format(GL=extras, **entry)` as in `action_put_file` and
`action_create_tag`.  Python raises `TypeError` at the call itself when
`entry` also defines a key `GL` (multiple values for one keyword). -/
def formatWithGL (tmpl : Template) (extras : List (String × String)) (e : Entry) :
    Except FmtError String :=
  match e.lookup "GL" with
  | some _ => Except.error (FmtError.typeError "multiple values for keyword argument GL")
  | none => expandTemplate tmpl (("GL", FmtValue.dict extras) :: entryKwargs e)

/-- `output_template.format(commit=last_commit, **entry)` as in
`action_deadline_commits`. -/
def formatWithCommit (tmpl : Template) (c : Commit) (e : Entry) :
    Except FmtError String :=
  match e.lookup "commit" with
  | some _ => Except.error (FmtError.typeError "multiple values for keyword argument commit")
  | none => expandTemplate tmpl (("commit", FmtValue.obj [("id", c.id)]) :: entryKwargs e)

/-! ## Reconciliation engine

`_project_protect_branch`, `_project_protect_tag` and `_project_add_member`
compare the observed remote sub-resource with the desired configuration and
issue remote calls.  We model the observed remote state explicitly
(`none` = the sub-resource does not exist) and return the list of remote
mutation calls issued, in order, together with the remote state after the
call.  The observed access levels stand for
`gitlab_extract_access_level(obj, field)[0]`, i.e. the first element of the
corresponding access-levels array of the remote object. -/

/-- Remote mutation calls the reconciliation helpers can issue. -/
inductive RemoteOp where
  | deleteProtectedBranch
  | createProtectedBranch (merge_access_level push_access_level : AccessLevel)
  | deleteProtectedTag
  | createProtectedTag (create_access_level : AccessLevel)
  | memberSave (access_level : AccessLevel)
  | memberCreate (access_level : AccessLevel)
deriving DecidableEq, Repr

/-- Observed state of a protected branch. -/
structure ProtectedBranch where
  merge_access_level : AccessLevel
  push_access_level : AccessLevel
deriving DecidableEq, Repr

/-- Observed state of a protected tag. -/
structure ProtectedTag where
  create_access_level : AccessLevel
deriving DecidableEq, Repr

/-- `_project_protect_branch`: if the protected branch exists with the
desired merge/push access levels, do nothing; if it exists with different
levels, delete it and create it anew (protected branches lack the
SaveMixin); if it does not exist, create it. -/
def project_protect_branch (observed : Option ProtectedBranch)
    (merge_access_level push_access_level : AccessLevel) :
    List RemoteOp × Option ProtectedBranch :=
  match observed with
  | some protected_branch =>
    if protected_branch.merge_access_level = merge_access_level ∧
        protected_branch.push_access_level = push_access_level then
      ([], some protected_branch)
    else
      ([RemoteOp.deleteProtectedBranch,
        RemoteOp.createProtectedBranch merge_access_level push_access_level],
       some ⟨merge_access_level, push_access_level⟩)
  | none =>
    ([RemoteOp.createProtectedBranch merge_access_level push_access_level],
     some ⟨merge_access_level, push_access_level⟩)

/-- `_project_protect_tag`: same delete-then-create pattern for the
create access level of a protected tag. -/
def project_protect_tag (observed : Option ProtectedTag)
    (create_access_level : AccessLevel) :
    List RemoteOp × Option ProtectedTag :=
  match observed with
  | some protected_tag =>
    if protected_tag.create_access_level = create_access_level then
      ([], some protected_tag)
    else
      ([RemoteOp.deleteProtectedTag,
        RemoteOp.createProtectedTag create_access_level],
       some ⟨create_access_level⟩)
  | none =>
    ([RemoteOp.createProtectedTag create_access_level],
     some ⟨create_access_level⟩)

/-- `_project_add_member`: if the member exists with the desired access
level, do nothing; if with a different level, update the attribute and
save (members do support in-place mutation); otherwise create the member. -/
def project_add_member (observed : Option AccessLevel)
    (access_level : AccessLevel) :
    List RemoteOp × Option AccessLevel :=
  match observed with
  | some existing_access_level =>
    if existing_access_level = access_level then
      ([], some existing_access_level)
    else
      ([RemoteOp.memberSave access_level], some access_level)
  | none =>
    ([RemoteOp.memberCreate access_level], some access_level)

/-! ## Entry Resolver

`ActionEntries.as_gitlab_users` and `ActionEntries.as_gitlab_projects`
turn CSV rows into `(entry, user)` / `(entry, project)` pairs.  The remote
service is modelled by oracle functions (`users_lookup`, `projects_lookup`)
giving, for a login or an expanded path, the remote object or `none`
(= the `GitlabGetError` not-found condition).  Each processed row of the
project resolver is recorded as a `Row` (entry, expanded path, and what the
loop body did for it); yielded pairs, emitted warnings and remote lookups
are derived from the rows, preserving the original order. -/

/-- What `as_gitlab_projects` did for one processed entry:
cache hit re-yielding the cached project (`allow_duplicates = true`),
cache hit suppressed (`allow_duplicates = false`), cache miss with a
successful remote lookup (cached and yielded), or cache miss with a
not-found remote answer (warning, nothing yielded, nothing cached). -/
inductive RowOutcome where
  | hitYield (project : Project)
  | hitSkip
  | missFound (project : Project)
  | missNotFound
deriving DecidableEq, Repr

/-- One processed row of `as_gitlab_projects`. -/
structure Row where
  entry : Entry
  path : String
  out : RowOutcome
deriving DecidableEq, Repr

/-- Pairs this row yields to the caller. -/
def rowPairs (r : Row) : List (Entry × Project) :=
  match r.out with
  | RowOutcome.hitYield p => [(r.entry, p)]
  | RowOutcome.missFound p => [(r.entry, p)]
  | _ => []

/-- Warning diagnostics this row emits. -/
def rowWarnings (r : Row) : List String :=
  match r.out with
  | RowOutcome.missNotFound => ["Project " ++ r.path ++ " not found."]
  | _ => []

/-- Remote project lookups (`mg.get_canonical_project` calls) this row
performs, identified by the looked-up path. -/
def rowLookups (r : Row) : List String :=
  match r.out with
  | RowOutcome.missFound _ => [r.path]
  | RowOutcome.missNotFound => [r.path]
  | _ => []

/-- All pairs yielded by a run, in order. -/
def pairsOf (rows : List Row) : List (Entry × Project) :=
  rows.flatMap rowPairs

/-- All warnings emitted by a run, in order. -/
def warningsOf (rows : List Row) : List String :=
  rows.flatMap rowWarnings

/-- All remote lookups performed by a run, in order. -/
def lookupsOf (rows : List Row) : List String :=
  rows.flatMap rowLookups

/-- The loop of `as_gitlab_projects`, threading the `projects_by_path`
cache.  The boolean result is `true` when the loop was aborted by an
uncaught exception from `project_template.format(**entry)` (a missing
column raises `KeyError`, which the source does not catch); in that case
the failing entry and all later entries produce no row.  A not-found
remote answer is caught (`GitlabGetError`), logged and *not* cached. -/
def as_gitlab_projects_go (projects_lookup : String → Option Project)
    (project_template : Template) (allow_duplicates : Bool) :
    List Entry → List (String × Project) → List Row × Bool
  | [], _ => ([], false)
  | entry :: rest, projects_by_path =>
    match expandTemplate project_template (entryKwargs entry) with
    | Except.error _ => ([], true)
    | Except.ok project_path =>
      match projects_by_path.lookup project_path with
      | some project =>
        let tail := as_gitlab_projects_go projects_lookup project_template
          allow_duplicates rest projects_by_path
        (⟨entry, project_path,
          if allow_duplicates then RowOutcome.hitYield project else RowOutcome.hitSkip⟩
          :: tail.1, tail.2)
      | none =>
        match projects_lookup project_path with
        | some project =>
          let tail := as_gitlab_projects_go projects_lookup project_template
            allow_duplicates rest ((project_path, project) :: projects_by_path)
          (⟨entry, project_path, RowOutcome.missFound project⟩ :: tail.1, tail.2)
        | none =>
          let tail := as_gitlab_projects_go projects_lookup project_template
            allow_duplicates rest projects_by_path
          (⟨entry, project_path, RowOutcome.missNotFound⟩ :: tail.1, tail.2)

/-- `ActionEntries.as_gitlab_projects`: run the loop from an empty cache. -/
def as_gitlab_projects (projects_lookup : String → Option Project)
    (project_template : Template) (allow_duplicates : Bool)
    (entries : List Entry) : List Row × Bool :=
  as_gitlab_projects_go projects_lookup project_template allow_duplicates entries []

/-- `ActionEntries.as_gitlab_users`: every entry yields exactly one
`(entry, user option)` pair; a missing or empty login column, or a login
with no matching user, yields `(entry, none)` after a warning.  Returns
(pairs, warnings). -/
def as_gitlab_users (users_lookup : String → Option User) (login_column : String) :
    List Entry → List (Entry × Option User) × List String
  | [] => ([], [])
  | entry :: rest =>
    let tail := as_gitlab_users users_lookup login_column rest
    match entry.lookup login_column with
    | some user_login =>
      if user_login ≠ "" then
        match users_lookup user_login with
        | some user_object => ((entry, some user_object) :: tail.1, tail.2)
        | none =>
          ((entry, none) :: tail.1,
           ("User " ++ user_login ++ " not found.") :: tail.2)
      else
        ((entry, none) :: tail.1,
         ("No " ++ login_column ++ " column in " ++ reprEntry entry ++ ".") :: tail.2)
    | none =>
      ((entry, none) :: tail.1,
       ("No " ++ login_column ++ " column in " ++ reprEntry entry ++ ".") :: tail.2)

/-- Cache invariant of `as_gitlab_projects_go`: everything in
`projects_by_path` was obtained from a successful remote lookup. -/
def CacheOk (projects_lookup : String → Option Project)
    (projects_by_path : List (String × Project)) : Prop :=
  ∀ p pr, projects_by_path.lookup p = some pr → projects_lookup p = some pr

/-! ## Batch loops of the reconciliation commands -/

/-- The per-project loop shared by `action_protect_branch`,
`action_protect_tag` and `action_add_member`: each resolved project is
reconciled inside `try/except gitlab.GitlabError`; a declared failure is
logged with `logger.error` and the loop continues with the next project.
`reconcile` is the per-project body (`_project_protect_branch`, ...,
raising `gitlab.GitlabError` with a message).  Returns each processed
project paired with the error logged for it, if any. -/
def action_reconcile_loop (reconcile : Project → Except String Unit) :
    List Project → List (Project × Option String)
  | [] => []
  | project :: rest =>
    match reconcile project with
    | Except.ok _ => (project, none) :: action_reconcile_loop reconcile rest
    | Except.error e => (project, some e) :: action_reconcile_loop reconcile rest

/-- Result of `mg.create_tag`: success, or
`gitlab.exceptions.GitlabCreateError` with its HTTP response code and
error message. -/
inductive TagCreateOutcome where
  | ok
  | createError (response_code : Nat) (error_message : String)
deriving DecidableEq, Repr

/-- Python `str.endswith`, on the character sequence. -/
def ends_with (s suffix : String) : Bool :=
  List.isSuffixOf suffix.data s.data

/-- The `except GitlabCreateError` filter of `action_create_tag`: a
BAD_REQUEST (400) whose message ends with "already exists" is passed over,
anything else is re-raised. -/
def tag_error_is_benign (response_code : Nat) (error_message : String) : Bool :=
  response_code == 400 && ends_with error_message "already exists"

/-- Whether the `action_create_tag` loop continues past a row with this
creation outcome. -/
def tag_outcome_continues : TagCreateOutcome → Bool
  | TagCreateOutcome.ok => true
  | TagCreateOutcome.createError code msg => tag_error_is_benign code msg

/-- The per-entry loop of `action_create_tag` over the resolved
(entry, project) pairs: a row whose creation succeeds, or fails benignly
(tag already exists), is completed and the loop continues; any other
creation failure is re-raised, aborting the invocation.  Returns the
completed rows and the re-raised error, if any. -/
def action_create_tag_loop (create_tag : Project → TagCreateOutcome) :
    List (Entry × Project) → List (Entry × Project) × Option (Nat × String)
  | [] => ([], none)
  | (entry, project) :: rest =>
    match create_tag project with
    | TagCreateOutcome.ok =>
      let tail := action_create_tag_loop create_tag rest
      ((entry, project) :: tail.1, tail.2)
    | TagCreateOutcome.createError code msg =>
      if tag_error_is_benign code msg then
        let tail := action_create_tag_loop create_tag rest
        ((entry, project) :: tail.1, tail.2)
      else
        ([], some (code, msg))

/-! ## action_deadline_commits -/

/-- The placeholder commit (`CommitMock`) used by `action_deadline_commits`
when the submission-commit lookup raises not-found. -/
def mock_commit : Commit := ⟨"0000000000000000000000000000000000000000"⟩

/-- One row of `action_deadline_commits`: resolve the submission commit
(`mg.get_commit_before_deadline`, an opaque collaborator modelled as an
oracle returning the commit or the `GitlabGetError` not-found condition),
fall back to `mock_commit` on not-found, then format the output row with
`output_template.format(commit=last_commit, **entry)`. -/
def deadline_commit_row (get_commit : Project → Except Unit Commit)
    (output_template : Template) (entry : Entry) (project : Project) :
    Except FmtError String :=
  let last_commit :=
    match get_commit project with
    | Except.ok c => c
    | Except.error _ => mock_commit
  formatWithCommit output_template last_commit entry

/-- The output loop of `action_deadline_commits`: one printed line per
resolved (entry, project) pair; an uncaught formatting error aborts the
loop (boolean result `true`). -/
def action_deadline_commits_loop (get_commit : Project → Except Unit Commit)
    (output_template : Template) :
    List (Entry × Project) → List String × Bool
  | [] => ([], false)
  | (entry, project) :: rest =>
    match deadline_commit_row get_commit output_template entry project with
    | Except.error _ => ([], true)
    | Except.ok line =>
      let tail := action_deadline_commits_loop get_commit output_template rest
      (line :: tail.1, tail.2)

/-- The keyword dictionary seen by the format string in an accepted
`format(GL=extras, **entry)` call. -/
def glKwargs (extras : List (String × String)) (e : Entry) : List (String × FmtValue) :=
  ("GL", FmtValue.dict extras) :: entryKwargs e

end TeachersGitlab

namespace TeachersGitlab

/-- C1: in state Present-Differing, the protected-branch and protected-tag
reconcilers issue exactly a delete of the existing resource followed by a
create with the desired configuration (never an in-place update), while the
membership reconciler issues exactly an in-place update of the access level
(never a delete followed by a create). -/
theorem c1_present_differing_calls
    (pb : ProtectedBranch) (merge push : AccessLevel)
    (hb : pb.merge_access_level ≠ merge ∨ pb.push_access_level ≠ push)
    (pt : ProtectedTag) (create : AccessLevel)
    (ht : pt.create_access_level ≠ create)
    (lvl desired : AccessLevel) (hm : lvl ≠ desired) :
    (project_protect_branch (some pb) merge push).1 =
      [RemoteOp.deleteProtectedBranch, RemoteOp.createProtectedBranch merge push] ∧
    (project_protect_tag (some pt) create).1 =
      [RemoteOp.deleteProtectedTag, RemoteOp.createProtectedTag create] ∧
    (project_add_member (some lvl) desired).1 = [RemoteOp.memberSave desired] := by
  refine ⟨?_, ?_, ?_⟩
  · simp only [project_protect_branch]
    rw [if_neg]
    intro hc
    rcases hb with h | h
    · exact h hc.1
    · exact h hc.2
  · simp only [project_protect_tag]
    rw [if_neg ht]
  · simp only [project_add_member]
    rw [if_neg hm]

/-- Witness for C1 at concrete differing configurations. -/
theorem c1_present_differing_calls_witness :
    (project_protect_branch (some ⟨AccessLevel.DEVELOPER, AccessLevel.MAINTAINER⟩)
        AccessLevel.MAINTAINER AccessLevel.MAINTAINER).1 =
      [RemoteOp.deleteProtectedBranch,
       RemoteOp.createProtectedBranch AccessLevel.MAINTAINER AccessLevel.MAINTAINER] ∧
    (project_protect_tag (some ⟨AccessLevel.DEVELOPER⟩) AccessLevel.NO_ACCESS).1 =
      [RemoteOp.deleteProtectedTag, RemoteOp.createProtectedTag AccessLevel.NO_ACCESS] ∧
    (project_add_member (some AccessLevel.DEVELOPER) AccessLevel.MAINTAINER).1 =
      [RemoteOp.memberSave AccessLevel.MAINTAINER] :=
  c1_present_differing_calls
    ⟨AccessLevel.DEVELOPER, AccessLevel.MAINTAINER⟩ AccessLevel.MAINTAINER AccessLevel.MAINTAINER
    (Or.inl (by decide))
    ⟨AccessLevel.DEVELOPER⟩ AccessLevel.NO_ACCESS (by decide)
    AccessLevel.DEVELOPER AccessLevel.MAINTAINER (by decide)

/-- C2: reconciliation is idempotent for all three resource kinds: one
application leaves the remote state exactly at the desired configuration
(Present-Matching), and a second application with the same desired
configuration issues no remote create, update, or delete call and leaves
the state unchanged. -/
theorem c2_reconciliation_idempotent
    (b : Option ProtectedBranch) (merge push : AccessLevel)
    (t : Option ProtectedTag) (create : AccessLevel)
    (m : Option AccessLevel) (desired : AccessLevel) :
    ((project_protect_branch b merge push).2 = some ⟨merge, push⟩ ∧
      project_protect_branch (project_protect_branch b merge push).2 merge push =
        ([], (project_protect_branch b merge push).2)) ∧
    ((project_protect_tag t create).2 = some ⟨create⟩ ∧
      project_protect_tag (project_protect_tag t create).2 create =
        ([], (project_protect_tag t create).2)) ∧
    ((project_add_member m desired).2 = some desired ∧
      project_add_member (project_add_member m desired).2 desired =
        ([], (project_add_member m desired).2)) := by
  refine ⟨⟨?_, ?_⟩, ⟨?_, ?_⟩, ⟨?_, ?_⟩⟩
  · match b with
    | none => simp [project_protect_branch]
    | some pb =>
      by_cases h : pb.merge_access_level = merge ∧ pb.push_access_level = push
      · match pb, h with
        | ⟨m0, p0⟩, ⟨h1, h2⟩ =>
          subst h1; subst h2
          simp [project_protect_branch]
      · simp [project_protect_branch, if_neg h]
  · match b with
    | none => simp [project_protect_branch]
    | some pb =>
      by_cases h : pb.merge_access_level = merge ∧ pb.push_access_level = push
      · match pb, h with
        | ⟨m0, p0⟩, ⟨h1, h2⟩ =>
          subst h1; subst h2
          simp [project_protect_branch]
      · simp [project_protect_branch, if_neg h]
  · match t with
    | none => simp [project_protect_tag]
    | some pt =>
      by_cases h : pt.create_access_level = create
      · match pt, h with
        | ⟨c0⟩, h1 =>
          subst h1
          simp [project_protect_tag]
      · simp [project_protect_tag, if_neg h]
  · match t with
    | none => simp [project_protect_tag]
    | some pt =>
      by_cases h : pt.create_access_level = create
      · match pt, h with
        | ⟨c0⟩, h1 =>
          subst h1
          simp [project_protect_tag]
      · simp [project_protect_tag, if_neg h]
  · match m with
    | none => simp [project_add_member]
    | some l =>
      by_cases h : l = desired
      · simp [project_add_member, if_pos h, h]
      · simp [project_add_member, if_neg h]
  · match m with
    | none => simp [project_add_member]
    | some l =>
      by_cases h : l = desired
      · subst h; simp [project_add_member]
      · simp [project_add_member, if_neg h]

/-! ### Entry Resolver helper lemmas -/

theorem lookupsOf_cons (r : Row) (rows : List Row) :
    lookupsOf (r :: rows) = rowLookups r ++ lookupsOf rows := rfl

theorem pairsOf_cons (r : Row) (rows : List Row) :
    pairsOf (r :: rows) = rowPairs r ++ pairsOf rows := rfl

theorem warningsOf_cons (r : Row) (rows : List Row) :
    warningsOf (r :: rows) = rowWarnings r ++ warningsOf rows := rfl

theorem rowLookups_hit (e : Entry) (path : String) (p : Project) (dup : Bool) :
    rowLookups ⟨e, path, if dup then RowOutcome.hitYield p else RowOutcome.hitSkip⟩ = [] := by
  cases dup <;> rfl

theorem cacheOk_nil (pl : String → Option Project) : CacheOk pl [] := by
  intro p pr h
  simp [List.lookup] at h

theorem lookup_cons_ne (p k : String) (v : Project) (cache : List (String × Project))
    (h : (k == p) = false) :
    List.lookup p ((k, v) :: cache) = List.lookup p cache := by
  have h2 : (p == k) = false := by
    rw [beq_eq_false_iff_ne] at h ⊢
    exact Ne.symm h
  simp [List.lookup, h2]

theorem lookup_cons_self (p : String) (v : Project) (cache : List (String × Project)) :
    List.lookup p ((p, v) :: cache) = some v := by
  simp [List.lookup]

theorem cacheOk_cons (pl : String → Option Project) (cache : List (String × Project))
    (path : String) (pr : Project) (h : CacheOk pl cache) (hp : pl path = some pr) :
    CacheOk pl ((path, pr) :: cache) := by
  intro p q hq
  by_cases hpp : path = p
  · subst hpp
    rw [lookup_cons_self] at hq
    cases hq
    exact hp
  · rw [lookup_cons_ne p path pr cache (beq_eq_false_iff_ne.mpr hpp)] at hq
    exact h p q hq

theorem cached_no_lookup (pl : String → Option Project) (tmpl : Template) (dup : Bool)
    (path : String) :
    ∀ (es : List Entry) (cache : List (String × Project)),
      CacheOk pl cache → (List.lookup path cache).isSome →
      (lookupsOf (as_gitlab_projects_go pl tmpl dup es cache).1).count path = 0 := by
  intro es
  induction es with
  | nil => intro cache _ _; simp [as_gitlab_projects_go, lookupsOf]
  | cons e rest ih =>
    intro cache hok hcached
    cases hexp : expandTemplate tmpl (entryKwargs e) with
    | error err => simp [as_gitlab_projects_go, hexp, lookupsOf]
    | ok p' =>
      cases hc : List.lookup p' cache with
      | some pr =>
        simp only [as_gitlab_projects_go, hexp, hc]
        rw [lookupsOf_cons, List.count_append, rowLookups_hit]
        simpa using ih cache hok hcached
      | none =>
        have hne : (p' == path) = false := by
          rw [beq_eq_false_iff_ne]
          intro hpp
          subst hpp
          rw [hc] at hcached
          simp at hcached
        cases hl : pl p' with
        | some pr =>
          simp only [as_gitlab_projects_go, hexp, hc, hl]
          rw [lookupsOf_cons, List.count_append]
          have hcached2 : (List.lookup path ((p', pr) :: cache)).isSome := by
            rw [lookup_cons_ne path p' pr cache hne]
            exact hcached
          have htail := ih ((p', pr) :: cache) (cacheOk_cons pl cache p' pr hok hl) hcached2
          simp [rowLookups, List.count_cons, hne, htail]
        | none =>
          simp only [as_gitlab_projects_go, hexp, hc, hl]
          rw [lookupsOf_cons, List.count_append]
          have htail := ih cache hok hcached
          simp [rowLookups, List.count_cons, hne, htail]

theorem found_at_most_one (pl : String → Option Project) (tmpl : Template) (dup : Bool)
    (path : String) (q : Project) (hq : pl path = some q) :
    ∀ (es : List Entry) (cache : List (String × Project)),
      CacheOk pl cache → List.lookup path cache = none →
      (lookupsOf (as_gitlab_projects_go pl tmpl dup es cache).1).count path ≤ 1 := by
  intro es
  induction es with
  | nil => intro cache _ _; simp [as_gitlab_projects_go, lookupsOf]
  | cons e rest ih =>
    intro cache hok hnc
    cases hexp : expandTemplate tmpl (entryKwargs e) with
    | error err => simp [as_gitlab_projects_go, hexp, lookupsOf]
    | ok p' =>
      cases hc : List.lookup p' cache with
      | some pr =>
        simp only [as_gitlab_projects_go, hexp, hc]
        rw [lookupsOf_cons, List.count_append, rowLookups_hit]
        simpa using ih cache hok hnc
      | none =>
        cases hl : pl p' with
        | some pr =>
          by_cases hpp : p' = path
          · subst hpp
            simp only [as_gitlab_projects_go, hexp, hc, hl]
            rw [lookupsOf_cons, List.count_append]
            have htail := cached_no_lookup pl tmpl dup p' rest ((p', pr) :: cache)
              (cacheOk_cons pl cache p' pr hok hl)
              (by rw [lookup_cons_self]; rfl)
            simp [rowLookups, List.count_cons, htail]
          · have hne : (p' == path) = false := beq_eq_false_iff_ne.mpr hpp
            simp only [as_gitlab_projects_go, hexp, hc, hl]
            rw [lookupsOf_cons, List.count_append]
            have hnc2 : List.lookup path ((p', pr) :: cache) = none := by
              rw [lookup_cons_ne path p' pr cache hne]
              exact hnc
            have htail := ih ((p', pr) :: cache) (cacheOk_cons pl cache p' pr hok hl) hnc2
            simp [rowLookups, List.count_cons, hne]
            omega
        | none =>
          have hne : (p' == path) = false := by
            rw [beq_eq_false_iff_ne]
            intro hpp
            subst hpp
            rw [hq] at hl
            cases hl
          simp only [as_gitlab_projects_go, hexp, hc, hl]
          rw [lookupsOf_cons, List.count_append]
          have htail := ih cache hok hnc
          simp [rowLookups, List.count_cons, hne]
          omega

theorem found_exactly_one (pl : String → Option Project) (tmpl : Template) (dup : Bool)
    (path : String) (q : Project) (hq : pl path = some q) :
    ∀ (es : List Entry) (cache : List (String × Project)),
      CacheOk pl cache → List.lookup path cache = none →
      (∃ r ∈ (as_gitlab_projects_go pl tmpl dup es cache).1, r.path = path) →
      (lookupsOf (as_gitlab_projects_go pl tmpl dup es cache).1).count path = 1 := by
  intro es
  induction es with
  | nil =>
    intro cache _ _ hex
    simp [as_gitlab_projects_go] at hex
  | cons e rest ih =>
    intro cache hok hnc hex
    cases hexp : expandTemplate tmpl (entryKwargs e) with
    | error err => simp [as_gitlab_projects_go, hexp] at hex
    | ok p' =>
      cases hc : List.lookup p' cache with
      | some pr =>
        have hne : (p' == path) = false := by
          rw [beq_eq_false_iff_ne]
          intro hpp
          subst hpp
          rw [hnc] at hc
          cases hc
        simp only [as_gitlab_projects_go, hexp, hc] at hex ⊢
        rw [lookupsOf_cons, List.count_append, rowLookups_hit]
        have hex2 : ∃ r ∈ (as_gitlab_projects_go pl tmpl dup rest cache).1, r.path = path := by
          rcases hex with ⟨r, hr, hrp⟩
          rcases List.mem_cons.mp hr with h | h
          · exfalso
            subst h
            exact absurd hrp (by simpa using beq_eq_false_iff_ne.mp hne)
          · exact ⟨r, h, hrp⟩
        simpa using ih cache hok hnc hex2
      | none =>
        cases hl : pl p' with
        | some pr =>
          by_cases hpp : p' = path
          · subst hpp
            simp only [as_gitlab_projects_go, hexp, hc, hl]
            rw [lookupsOf_cons, List.count_append]
            have htail := cached_no_lookup pl tmpl dup p' rest ((p', pr) :: cache)
              (cacheOk_cons pl cache p' pr hok hl)
              (by rw [lookup_cons_self]; rfl)
            simp [rowLookups, List.count_cons, htail]
          · have hne : (p' == path) = false := beq_eq_false_iff_ne.mpr hpp
            simp only [as_gitlab_projects_go, hexp, hc, hl] at hex ⊢
            rw [lookupsOf_cons, List.count_append]
            have hnc2 : List.lookup path ((p', pr) :: cache) = none := by
              rw [lookup_cons_ne path p' pr cache hne]
              exact hnc
            have hex2 : ∃ r ∈ (as_gitlab_projects_go pl tmpl dup rest
                ((p', pr) :: cache)).1, r.path = path := by
              rcases hex with ⟨r, hr, hrp⟩
              rcases List.mem_cons.mp hr with h | h
              · exfalso
                subst h
                simp only [Row.path] at hrp
                exact hpp hrp
              · exact ⟨r, h, hrp⟩
            have htail := ih ((p', pr) :: cache)
              (cacheOk_cons pl cache p' pr hok hl) hnc2 hex2
            simp [rowLookups, List.count_cons, hne, htail]
        | none =>
          have hpp : p' ≠ path := by
            intro hpp
            subst hpp
            rw [hq] at hl
            cases hl
          have hne : (p' == path) = false := beq_eq_false_iff_ne.mpr hpp
          simp only [as_gitlab_projects_go, hexp, hc, hl] at hex ⊢
          rw [lookupsOf_cons, List.count_append]
          have hex2 : ∃ r ∈ (as_gitlab_projects_go pl tmpl dup rest cache).1,
              r.path = path := by
            rcases hex with ⟨r, hr, hrp⟩
            rcases List.mem_cons.mp hr with h | h
            · exfalso
              subst h
              simp only [Row.path] at hrp
              exact hpp hrp
            · exact ⟨r, h, hrp⟩
          have htail := ih cache hok hnc hex2
          simp [rowLookups, List.count_cons, hne, htail]

theorem not_found_count (pl : String → Option Project) (tmpl : Template) (dup : Bool)
    (path : String) (hn : pl path = none) :
    ∀ (es : List Entry) (cache : List (String × Project)),
      CacheOk pl cache →
      (lookupsOf (as_gitlab_projects_go pl tmpl dup es cache).1).count path =
        ((as_gitlab_projects_go pl tmpl dup es cache).1.filter
          (fun r => r.path == path)).length := by
  intro es
  induction es with
  | nil => intro cache _; simp [as_gitlab_projects_go, lookupsOf]
  | cons e rest ih =>
    intro cache hok
    cases hexp : expandTemplate tmpl (entryKwargs e) with
    | error err => simp [as_gitlab_projects_go, hexp, lookupsOf]
    | ok p' =>
      cases hc : List.lookup p' cache with
      | some pr =>
        have hne : (p' == path) = false := by
          rw [beq_eq_false_iff_ne]
          intro hpp
          subst hpp
          rw [hok p' pr hc] at hn
          cases hn
        simp only [as_gitlab_projects_go, hexp, hc]
        rw [lookupsOf_cons, List.count_append, rowLookups_hit]
        have htail := ih cache hok
        simp [List.filter, hne, htail]
      | none =>
        cases hl : pl p' with
        | some pr =>
          have hne : (p' == path) = false := by
            rw [beq_eq_false_iff_ne]
            intro hpp
            subst hpp
            rw [hl] at hn
            cases hn
          simp only [as_gitlab_projects_go, hexp, hc, hl]
          rw [lookupsOf_cons, List.count_append]
          have htail := ih ((p', pr) :: cache) (cacheOk_cons pl cache p' pr hok hl)
          simp [rowLookups, List.count_cons, List.filter, hne, htail]
        | none =>
          simp only [as_gitlab_projects_go, hexp, hc, hl]
          rw [lookupsOf_cons, List.count_append]
          have htail := ih cache hok
          by_cases hpp : p' = path
          · subst hpp
            simp [rowLookups, List.count_cons, List.filter, htail]
            omega
          · have hne : (p' == path) = false := beq_eq_false_iff_ne.mpr hpp
            simp [rowLookups, List.count_cons, List.filter, hne, htail]

theorem not_found_outcome (pl : String → Option Project) (tmpl : Template) (dup : Bool) :
    ∀ (es : List Entry) (cache : List (String × Project)),
      CacheOk pl cache →
      ∀ r ∈ (as_gitlab_projects_go pl tmpl dup es cache).1,
        pl r.path = none → r.out = RowOutcome.missNotFound := by
  intro es
  induction es with
  | nil => intro cache _ r hr; simp [as_gitlab_projects_go] at hr
  | cons e rest ih =>
    intro cache hok r hr hnone
    cases hexp : expandTemplate tmpl (entryKwargs e) with
    | error err => simp [as_gitlab_projects_go, hexp] at hr
    | ok p' =>
      cases hc : List.lookup p' cache with
      | some pr =>
        simp only [as_gitlab_projects_go, hexp, hc] at hr
        rcases List.mem_cons.mp hr with h | h
        · exfalso
          subst h
          simp only at hnone
          rw [hok p' pr hc] at hnone
          cases hnone
        · exact ih cache hok r h hnone
      | none =>
        cases hl : pl p' with
        | some pr =>
          simp only [as_gitlab_projects_go, hexp, hc, hl] at hr
          rcases List.mem_cons.mp hr with h | h
          · exfalso
            subst h
            simp only at hnone
            rw [hl] at hnone
            cases hnone
          · exact ih ((p', pr) :: cache) (cacheOk_cons pl cache p' pr hok hl) r h hnone
        | none =>
          simp only [as_gitlab_projects_go, hexp, hc, hl] at hr
          rcases List.mem_cons.mp hr with h | h
          · subst h; rfl
          · exact ih cache hok r h hnone

theorem row_expansion (pl : String → Option Project) (tmpl : Template) (dup : Bool) :
    ∀ (es : List Entry) (cache : List (String × Project)),
      ∀ r ∈ (as_gitlab_projects_go pl tmpl dup es cache).1,
        expandTemplate tmpl (entryKwargs r.entry) = Except.ok r.path := by
  intro es
  induction es with
  | nil => intro cache r hr; simp [as_gitlab_projects_go] at hr
  | cons e rest ih =>
    intro cache r hr
    cases hexp : expandTemplate tmpl (entryKwargs e) with
    | error err => simp [as_gitlab_projects_go, hexp] at hr
    | ok p' =>
      cases hc : List.lookup p' cache with
      | some pr =>
        simp only [as_gitlab_projects_go, hexp, hc] at hr
        rcases List.mem_cons.mp hr with h | h
        · subst h; simpa using hexp
        · exact ih cache r h
      | none =>
        cases hl : pl p' with
        | some pr =>
          simp only [as_gitlab_projects_go, hexp, hc, hl] at hr
          rcases List.mem_cons.mp hr with h | h
          · subst h; simpa using hexp
          · exact ih ((p', pr) :: cache) r h
        | none =>
          simp only [as_gitlab_projects_go, hexp, hc, hl] at hr
          rcases List.mem_cons.mp hr with h | h
          · subst h; simpa using hexp
          · exact ih cache r h

theorem mem_pairsOf (pl : String → Option Project) (tmpl : Template) (dup : Bool) :
    ∀ (es : List Entry) (cache : List (String × Project)),
      CacheOk pl cache →
      ∀ e pr, (e, pr) ∈ pairsOf (as_gitlab_projects_go pl tmpl dup es cache).1 →
        ∃ path, expandTemplate tmpl (entryKwargs e) = Except.ok path ∧
          pl path = some pr := by
  intro es
  induction es with
  | nil => intro cache _ e pr hmem; simp [as_gitlab_projects_go, pairsOf] at hmem
  | cons e0 rest ih =>
    intro cache hok e pr hmem
    cases hexp : expandTemplate tmpl (entryKwargs e0) with
    | error err => simp [as_gitlab_projects_go, hexp, pairsOf] at hmem
    | ok p' =>
      cases hc : List.lookup p' cache with
      | some pr0 =>
        simp only [as_gitlab_projects_go, hexp, hc] at hmem
        rw [pairsOf_cons, List.mem_append] at hmem
        rcases hmem with h | h
        · cases dup with
          | true =>
            simp only [if_pos] at h
            simp [rowPairs] at h
            rcases h with ⟨he, hpr⟩
            subst he
            exact ⟨p', hexp, hpr ▸ hok p' pr0 hc⟩
          | false =>
            simp only [Bool.false_eq_true, if_neg] at h
            simp [rowPairs] at h
        · exact ih cache hok e pr h
      | none =>
        cases hl : pl p' with
        | some pr0 =>
          simp only [as_gitlab_projects_go, hexp, hc, hl] at hmem
          rw [pairsOf_cons, List.mem_append] at hmem
          rcases hmem with h | h
          · simp [rowPairs] at h
            rcases h with ⟨he, hpr⟩
            subst he
            exact ⟨p', hexp, hpr ▸ hl⟩
          · exact ih ((p', pr0) :: cache) (cacheOk_cons pl cache p' pr0 hok hl) e pr h
        | none =>
          simp only [as_gitlab_projects_go, hexp, hc, hl] at hmem
          rw [pairsOf_cons, List.mem_append] at hmem
          rcases hmem with h | h
          · simp [rowPairs] at h
          · exact ih cache hok e pr h

theorem users_pairs_entries (ul : String → Option User) (col : String) :
    ∀ es : List Entry, ((as_gitlab_users ul col es).1.map Prod.fst) = es := by
  intro es
  induction es with
  | nil => rfl
  | cons e rest ih =>
    cases hlog : e.lookup col with
    | some login =>
      by_cases hne : login ≠ ""
      · cases hu : ul login with
        | some u => simp [as_gitlab_users, hlog, hne, hu, ih]
        | none => simp [as_gitlab_users, hlog, hne, hu, ih]
      · simp [as_gitlab_users, hlog, hne, ih]
    | none => simp [as_gitlab_users, hlog, ih]

theorem rows_entries (pl : String → Option Project) (tmpl : Template) (dup : Bool) :
    ∀ (es : List Entry) (cache : List (String × Project)),
      (as_gitlab_projects_go pl tmpl dup es cache).2 = false →
      ((as_gitlab_projects_go pl tmpl dup es cache).1.map Row.entry) = es := by
  intro es
  induction es with
  | nil => intro cache _; simp [as_gitlab_projects_go]
  | cons e rest ih =>
    intro cache hfalse
    cases hexp : expandTemplate tmpl (entryKwargs e) with
    | error err => simp [as_gitlab_projects_go, hexp] at hfalse
    | ok p' =>
      cases hc : List.lookup p' cache with
      | some pr =>
        simp only [as_gitlab_projects_go, hexp, hc] at hfalse ⊢
        simp [ih cache hfalse]
      | none =>
        cases hl : pl p' with
        | some pr =>
          simp only [as_gitlab_projects_go, hexp, hc, hl] at hfalse ⊢
          simp [ih ((p', pr) :: cache) hfalse]
        | none =>
          simp only [as_gitlab_projects_go, hexp, hc, hl] at hfalse ⊢
          simp [ih cache hfalse]

/-- C3 counterexample: with duplicate suppression enabled
(`allow_duplicates = false`), two entries sharing the expanded path `x`
whose remote lookup reports not-found cause two remote lookups of `x`,
not at most one — the resolver never caches a not-found path. -/
theorem c3_counterexample :
    (lookupsOf (as_gitlab_projects (fun _ => none) [TItem.field "p"] false
      [[("p", "x")], [("p", "x")]]).1).count "x" = 2 := by decide

/-- C3 (amended): for an expanded path that resolves to an existing remote
project, at most one remote lookup occurs (exactly one if some entry
reaches that path), for either setting of `allow_duplicates`; for an
expanded path with no matching remote project, the resolver performs one
remote lookup per processed entry expanding to that path, because
not-found results are not cached. -/
theorem c3_amended_lookup_counts (pl : String → Option Project) (tmpl : Template)
    (dup : Bool) (entries : List Entry) (path : String) :
    ((∃ q, pl path = some q) →
      (lookupsOf (as_gitlab_projects pl tmpl dup entries).1).count path ≤ 1 ∧
      ((∃ r ∈ (as_gitlab_projects pl tmpl dup entries).1, r.path = path) →
        (lookupsOf (as_gitlab_projects pl tmpl dup entries).1).count path = 1)) ∧
    (pl path = none →
      (lookupsOf (as_gitlab_projects pl tmpl dup entries).1).count path =
        ((as_gitlab_projects pl tmpl dup entries).1.filter
          (fun r => r.path == path)).length) := by
  constructor
  · rintro ⟨q, hq⟩
    constructor
    · exact found_at_most_one pl tmpl dup path q hq entries [] (cacheOk_nil pl) rfl
    · intro hex
      exact found_exactly_one pl tmpl dup path q hq entries [] (cacheOk_nil pl) rfl hex
  · intro hn
    exact not_found_count pl tmpl dup path hn entries [] (cacheOk_nil pl)

/-- Witness for C3 (amended) at concrete inputs: a found path shared by two
entries is looked up exactly once; a not-found path shared by two entries
is looked up once per processed entry. -/
theorem c3_amended_lookup_counts_witness :
    (lookupsOf (as_gitlab_projects (fun s => if s = "x" then some ⟨"x"⟩ else none)
      [TItem.field "p"] false [[("p", "x")], [("p", "x")]]).1).count "x" = 1 ∧
    (lookupsOf (as_gitlab_projects (fun s => if s = "x" then some ⟨"x"⟩ else none)
      [TItem.field "p"] false [[("p", "y")], [("p", "y")]]).1).count "y" =
      ((as_gitlab_projects (fun s => if s = "x" then some ⟨"x"⟩ else none)
        [TItem.field "p"] false [[("p", "y")], [("p", "y")]]).1.filter
          (fun r => r.path == "y")).length :=
  ⟨((c3_amended_lookup_counts (fun s => if s = "x" then some ⟨"x"⟩ else none)
      [TItem.field "p"] false [[("p", "x")], [("p", "x")]] "x").1
      ⟨⟨"x"⟩, by decide⟩).2 (by decide),
   (c3_amended_lookup_counts (fun s => if s = "x" then some ⟨"x"⟩ else none)
      [TItem.field "p"] false [[("p", "y")], [("p", "y")]] "y").2 (by decide)⟩

/-- C4: an entry whose expanded project path has no matching remote project
appears in no (entry, project) output pair of the resolver run, and its
row emits exactly one diagnostic and yields no pair. -/
theorem c4_not_found_entries (pl : String → Option Project) (tmpl : Template)
    (dup : Bool) (entries : List Entry) (r : Row)
    (hr : r ∈ (as_gitlab_projects pl tmpl dup entries).1)
    (hnf : pl r.path = none) :
    (∀ pr, (r.entry, pr) ∉ pairsOf (as_gitlab_projects pl tmpl dup entries).1) ∧
    rowPairs r = [] ∧
    rowWarnings r = ["Project " ++ r.path ++ " not found."] := by
  have hout := not_found_outcome pl tmpl dup entries [] (cacheOk_nil pl) r hr hnf
  have hexp := row_expansion pl tmpl dup entries [] r hr
  refine ⟨?_, ?_, ?_⟩
  · intro pr hmem
    obtain ⟨path2, hexp2, hlk⟩ :=
      mem_pairsOf pl tmpl dup entries [] (cacheOk_nil pl) r.entry pr hmem
    rw [hexp] at hexp2
    simp only [Except.ok.injEq] at hexp2
    subst hexp2
    rw [hnf] at hlk
    cases hlk
  · simp [rowPairs, hout]
  · simp [rowWarnings, hout]

/-- Witness for C4: one entry expanding to the not-found path `x`. -/
theorem c4_not_found_entries_witness :
    (∀ pr, ([("p", "x")], pr) ∉
      pairsOf (as_gitlab_projects (fun _ => none) [TItem.field "p"] false
        [[("p", "x")]]).1) ∧
    rowPairs ⟨[("p", "x")], "x", RowOutcome.missNotFound⟩ = [] ∧
    rowWarnings ⟨[("p", "x")], "x", RowOutcome.missNotFound⟩ =
      ["Project " ++ "x" ++ " not found."] :=
  c4_not_found_entries (fun _ => none) [TItem.field "p"] false [[("p", "x")]]
    ⟨[("p", "x")], "x", RowOutcome.missNotFound⟩ (by decide) rfl

/-- C5 counterexample: with `allow_duplicates = false`, two entries
expanding to the same existing path produce two processed rows but only one
output pair and no diagnostic — the duplicate row is dropped silently,
with no report. -/
theorem c5_counterexample :
    (as_gitlab_projects (fun s => some ⟨s⟩) [TItem.field "p"] false
      [[("p", "x")], [("p", "x")]]).1.length = 2 ∧
    pairsOf (as_gitlab_projects (fun s => some ⟨s⟩) [TItem.field "p"] false
      [[("p", "x")], [("p", "x")]]).1 = [([("p", "x")], ⟨"x"⟩)] ∧
    warningsOf (as_gitlab_projects (fun s => some ⟨s⟩) [TItem.field "p"] false
      [[("p", "x")], [("p", "x")]]).1 = [] := by decide

/-- C5 (amended): every processed row of the project resolver either
contributes an output pair, or emits a diagnostic, or is a duplicate
suppressed by `allow_duplicates = false` (dropped with no report); when no
template-expansion abort occurs the processed rows are exactly the input
rows, in order; and account resolution pairs every input row with exactly
one output (a found user or an explicit `none` marker), in order. -/
theorem c5_amended_row_terminal_status (pl : String → Option Project)
    (ul : String → Option User) (tmpl : Template) (dup : Bool) (col : String)
    (entries entries2 : List Entry) :
    (∀ r ∈ (as_gitlab_projects pl tmpl dup entries).1,
      rowPairs r ≠ [] ∨ rowWarnings r ≠ [] ∨ r.out = RowOutcome.hitSkip) ∧
    ((as_gitlab_projects pl tmpl dup entries).2 = false →
      ((as_gitlab_projects pl tmpl dup entries).1.map Row.entry) = entries) ∧
    ((as_gitlab_users ul col entries2).1.map Prod.fst = entries2) := by
  refine ⟨?_, ?_, ?_⟩
  · intro r _
    cases hout : r.out with
    | hitYield p => left; simp [rowPairs, hout]
    | hitSkip => right; right; rfl
    | missFound p => left; simp [rowPairs, hout]
    | missNotFound => right; left; simp [rowWarnings, hout]
  · intro hfalse
    exact rows_entries pl tmpl dup entries [] hfalse
  · exact users_pairs_entries ul col entries2

/-- Witness for C5 (amended) at concrete inputs. -/
theorem c5_amended_row_terminal_status_witness :
    (rowPairs ⟨[("p", "x")], "x", RowOutcome.missFound ⟨"x"⟩⟩ ≠ [] ∨
      rowWarnings ⟨[("p", "x")], "x", RowOutcome.missFound ⟨"x"⟩⟩ ≠ [] ∨
      Row.out ⟨[("p", "x")], "x", RowOutcome.missFound ⟨"x"⟩⟩ = RowOutcome.hitSkip) ∧
    ((as_gitlab_projects (fun s => some ⟨s⟩) [TItem.field "p"] false
      [[("p", "x")], [("p", "x")]]).1.map Row.entry) = [[("p", "x")], [("p", "x")]] ∧
    ((as_gitlab_users (fun _ => none) "login" [[("login", "a")]]).1.map Prod.fst) =
      [[("login", "a")]] :=
  ⟨(c5_amended_row_terminal_status (fun s => some ⟨s⟩) (fun _ => none)
      [TItem.field "p"] false "login" [[("p", "x")], [("p", "x")]]
      [[("login", "a")]]).1 ⟨[("p", "x")], "x", RowOutcome.missFound ⟨"x"⟩⟩ (by decide),
   (c5_amended_row_terminal_status (fun s => some ⟨s⟩) (fun _ => none)
      [TItem.field "p"] false "login" [[("p", "x")], [("p", "x")]]
      [[("login", "a")]]).2.1 (by decide),
   (c5_amended_row_terminal_status (fun s => some ⟨s⟩) (fun _ => none)
      [TItem.field "p"] false "login" [[("p", "x")], [("p", "x")]]
      [[("login", "a")]]).2.2⟩

/-- C7 counterexample: the first entry lacks the `p` column used by the
project template, so `format(**entry)` raises `KeyError`; the whole
resolver run aborts with no processed row and no diagnostic — the second,
well-formed entry is never processed, contradicting skip-and-continue. -/
theorem c7_counterexample :
    as_gitlab_projects (fun s => some ⟨s⟩) [TItem.field "p"] false
      [[("q", "x")], [("p", "y")]] = ([], true) := by decide

/-- Helper for C7: from the failing entry on, nothing is processed. -/
theorem c7_go_abort (pl : String → Option Project) (tmpl : Template) (dup : Bool)
    (e : Entry) (post : List Entry) (err : FmtError)
    (he : expandTemplate tmpl (entryKwargs e) = Except.error err) :
    ∀ (pre : List Entry) (cache : List (String × Project)),
      (∀ e2 ∈ pre, ∃ s, expandTemplate tmpl (entryKwargs e2) = Except.ok s) →
      (as_gitlab_projects_go pl tmpl dup (pre ++ e :: post) cache).2 = true ∧
      (as_gitlab_projects_go pl tmpl dup (pre ++ e :: post) cache).1.length =
        pre.length := by
  intro pre
  induction pre with
  | nil =>
    intro cache _
    simp [as_gitlab_projects_go, he]
  | cons e0 rest ih =>
    intro cache hpre
    obtain ⟨s, hs⟩ := hpre e0 (List.mem_cons_self e0 rest)
    have hrest : ∀ e2 ∈ rest, ∃ s2, expandTemplate tmpl (entryKwargs e2) = Except.ok s2 :=
      fun e2 h2 => hpre e2 (List.mem_cons_of_mem e0 h2)
    cases hc : List.lookup s cache with
    | some pr =>
      have := ih cache hrest
      simp only [List.cons_append, as_gitlab_projects_go, hs, hc]
      simpa using this
    | none =>
      cases hl : pl s with
      | some pr =>
        have := ih ((s, pr) :: cache) hrest
        simp only [List.cons_append, as_gitlab_projects_go, hs, hc, hl]
        simpa using this
      | none =>
        have := ih cache hrest
        simp only [List.cons_append, as_gitlab_projects_go, hs, hc, hl]
        simpa using this

/-- C7 (amended): a format string naming a column absent from an entry
makes template expansion fail with the missing-column error (`KeyError`),
and this error propagates out of the resolver: the failing row gets no
diagnostic and the remaining rows are not processed — the run aborts at
that row instead of skipping it and continuing. -/
theorem c7_amended_template_error_aborts (pl : String → Option Project)
    (tmpl : Template) (dup : Bool) (pre : List Entry) (e : Entry)
    (post : List Entry) (err : FmtError)
    (hpre : ∀ e2 ∈ pre, ∃ s, expandTemplate tmpl (entryKwargs e2) = Except.ok s)
    (he : expandTemplate tmpl (entryKwargs e) = Except.error err) :
    (as_gitlab_projects pl tmpl dup (pre ++ e :: post)).2 = true ∧
    (as_gitlab_projects pl tmpl dup (pre ++ e :: post)).1.length = pre.length :=
  c7_go_abort pl tmpl dup e post err he pre [] hpre

/-- Witness for C7 (amended): a valid first entry, then an entry missing
the `p` column; the run aborts after processing exactly the first row. -/
theorem c7_amended_template_error_aborts_witness :
    (as_gitlab_projects (fun s => some ⟨s⟩) [TItem.field "p"] false
      ([[("p", "y")]] ++ [("q", "x")] :: [])).2 = true ∧
    (as_gitlab_projects (fun s => some ⟨s⟩) [TItem.field "p"] false
      ([[("p", "y")]] ++ [("q", "x")] :: [])).1.length =
      ([[("p", "y")]] : List Entry).length :=
  c7_amended_template_error_aborts (fun s => some ⟨s⟩) [TItem.field "p"] false
    [[("p", "y")]] [("q", "x")] [] (FmtError.keyError "p")
    (by
      intro e2 h2
      rw [List.mem_singleton] at h2
      subst h2
      exact ⟨"y", rfl⟩)
    rfl

/-! ### Batch-loop helper lemmas -/

theorem reconcile_loop_eq_map (reconcile : Project → Except String Unit) :
    ∀ ps : List Project,
      action_reconcile_loop reconcile ps =
        ps.map fun p => (p, match reconcile p with
          | Except.ok _ => none
          | Except.error e => some e) := by
  intro ps
  induction ps with
  | nil => rfl
  | cons p rest ih =>
    cases h : reconcile p <;> simp [action_reconcile_loop, h, ih]

/-- C6: the batch reconciliation loop shared by protect-branch,
protect-tag and add-member processes every resolved project: a declared
remote failure at position `i` is caught and recorded for that row, and
every project (in particular every one after position `i`) still appears,
in order, in the processed output. -/
theorem c6_batch_failure_isolation (reconcile : Project → Except String Unit)
    (projects : List Project) (i : Nat) (hi : i < projects.length) (msg : String)
    (hfail : reconcile (projects.get ⟨i, hi⟩) = Except.error msg) :
    ((action_reconcile_loop reconcile projects).map Prod.fst = projects) ∧
    (projects.get ⟨i, hi⟩, some msg) ∈ action_reconcile_loop reconcile projects := by
  constructor
  · rw [reconcile_loop_eq_map, List.map_map]
    have hcomp : (Prod.fst ∘ fun p : Project =>
        (p, (match reconcile p with
          | Except.ok _ => none
          | Except.error e => some e : Option String))) = id := by
      funext p
      rfl
    rw [hcomp, List.map_id]
  · rw [reconcile_loop_eq_map]
    have hm : projects.get ⟨i, hi⟩ ∈ projects := projects.get_mem i hi
    have : (projects.get ⟨i, hi⟩,
        (match reconcile (projects.get ⟨i, hi⟩) with
          | Except.ok _ => none
          | Except.error e => some e : Option String)) ∈
        projects.map fun p => (p, match reconcile p with
          | Except.ok _ => none
          | Except.error e => some e) := List.mem_map_of_mem _ hm
    rw [hfail] at this
    exact this

/-- Witness for C6: the first project fails, the second is still
processed. -/
theorem c6_batch_failure_isolation_witness :
    ((action_reconcile_loop (fun _ => Except.error "boom")
      [⟨"a"⟩, ⟨"b"⟩]).map Prod.fst = [⟨"a"⟩, ⟨"b"⟩]) ∧
    ((⟨"a"⟩ : Project), some "boom") ∈
      action_reconcile_loop (fun _ => Except.error "boom") [⟨"a"⟩, ⟨"b"⟩] :=
  c6_batch_failure_isolation (fun _ => Except.error "boom") [⟨"a"⟩, ⟨"b"⟩]
    0 (by decide) "boom" rfl

/-! ### format(GL=...) helper lemma -/

theorem lookup_entryKwargs (e : Entry) (c : String) :
    (entryKwargs e).lookup c = (e.lookup c).map FmtValue.str := by
  induction e with
  | nil => rfl
  | cons kv rest ih =>
    cases hbe : (c == kv.1) with
    | true => simp [entryKwargs, List.lookup, hbe]
    | false =>
      simp only [entryKwargs, List.map, List.lookup, hbe]
      simpa [entryKwargs] using ih

/-- C8 counterexample: an entry that itself defines a column named `GL`
makes `format(GL=extras, **entry)` raise `TypeError` (multiple values for
one keyword) — expansion does not succeed for such an entry. -/
theorem c8_counterexample :
    formatWithGL [TItem.lit "m"] [("target_filename", "f")] [("GL", "x")] =
      Except.error (FmtError.typeError "multiple values for keyword argument GL") := rfl

/-- C8 (amended): for every entry that does not define a column named
`GL`, the synthetic values are passed under the distinct `GL` namespace
key: the call succeeds exactly when expansion of the format string does,
in the keyword dictionary the key `GL` holds exactly the synthetic
dictionary, and every entry column resolves to its own entry value —
synthetic values never collide with entry columns.  An entry that does
define a `GL` column instead makes the call fail with `TypeError`. -/
theorem c8_amended_gl_namespace (tmpl : Template) (extras : List (String × String))
    (e : Entry) (h : e.lookup "GL" = none) :
    formatWithGL tmpl extras e = expandTemplate tmpl (glKwargs extras e) ∧
    (glKwargs extras e).lookup "GL" = some (FmtValue.dict extras) ∧
    (∀ c v, e.lookup c = some v →
      (glKwargs extras e).lookup c = some (FmtValue.str v)) := by
  refine ⟨?_, ?_, ?_⟩
  · simp [formatWithGL, h, glKwargs]
  · simp [glKwargs, List.lookup]
  · intro c v hc
    have hcne : (c == "GL") = false := by
      rw [beq_eq_false_iff_ne]
      intro hx
      subst hx
      rw [h] at hc
      cases hc
    simp [glKwargs, List.lookup, hcne, lookup_entryKwargs, hc]

/-- Witness for C8 (amended) at a concrete entry and extras dictionary. -/
theorem c8_amended_gl_namespace_witness :
    (formatWithGL [TItem.fieldIndex "GL" "target_filename"]
        [("target_filename", "f")] [("login", "a")] =
      expandTemplate [TItem.fieldIndex "GL" "target_filename"]
        (glKwargs [("target_filename", "f")] [("login", "a")])) ∧
    ((glKwargs [("target_filename", "f")] [("login", "a")]).lookup "GL" =
      some (FmtValue.dict [("target_filename", "f")])) ∧
    ((glKwargs [("target_filename", "f")] [("login", "a")]).lookup "login" =
      some (FmtValue.str "a")) :=
  ⟨(c8_amended_gl_namespace [TItem.fieldIndex "GL" "target_filename"]
      [("target_filename", "f")] [("login", "a")] rfl).1,
   (c8_amended_gl_namespace [TItem.fieldIndex "GL" "target_filename"]
      [("target_filename", "f")] [("login", "a")] rfl).2.1,
   (c8_amended_gl_namespace [TItem.fieldIndex "GL" "target_filename"]
      [("target_filename", "f")] [("login", "a")] rfl).2.2 "login" "a" rfl⟩

/-! ### action_create_tag helper lemmas -/

theorem create_tag_loop_all_continue (create_tag : Project → TagCreateOutcome) :
    ∀ rows : List (Entry × Project),
      (∀ r ∈ rows, tag_outcome_continues (create_tag r.2) = true) →
      action_create_tag_loop create_tag rows = (rows, none) := by
  intro rows
  induction rows with
  | nil => intro _; rfl
  | cons r rest ih =>
    intro hall
    have hr := hall r (List.mem_cons_self r rest)
    have hrest : ∀ r2 ∈ rest, tag_outcome_continues (create_tag r2.2) = true :=
      fun r2 h2 => hall r2 (List.mem_cons_of_mem r h2)
    match r with
    | (e, p) =>
      cases hc : create_tag p with
      | ok => simp [action_create_tag_loop, hc, ih hrest]
      | createError code msg =>
        rw [hc] at hr
        simp only [tag_outcome_continues] at hr
        simp [action_create_tag_loop, hc, hr, ih hrest]

theorem create_tag_loop_abort (create_tag : Project → TagCreateOutcome)
    (row : Entry × Project) (code : Nat) (msg : String)
    (hrow : create_tag row.2 = TagCreateOutcome.createError code msg)
    (hbad : tag_error_is_benign code msg = false) :
    ∀ (pre : List (Entry × Project)) (post : List (Entry × Project)),
      (∀ r ∈ pre, tag_outcome_continues (create_tag r.2) = true) →
      action_create_tag_loop create_tag (pre ++ row :: post) =
        (pre, some (code, msg)) := by
  intro pre
  induction pre with
  | nil =>
    intro post _
    match row, hrow with
    | (e, p), hrow2 =>
      simp [action_create_tag_loop, hrow2, hbad]
  | cons r rest ih =>
    intro post hpre
    have hr := hpre r (List.mem_cons_self r rest)
    have hrest : ∀ r2 ∈ rest, tag_outcome_continues (create_tag r2.2) = true :=
      fun r2 h2 => hpre r2 (List.mem_cons_of_mem r h2)
    match r with
    | (e, p) =>
      cases hc : create_tag p with
      | ok => simp [action_create_tag_loop, hc, ih post hrest]
      | createError code2 msg2 =>
        rw [hc] at hr
        simp only [tag_outcome_continues] at hr
        simp [action_create_tag_loop, hc, hr, ih post hrest]

/-- C9: a tag-creation failure that is a bad request (400) whose message
ends with "already exists" is passed over — the row completes and the loop
continues, so a batch of such rows completes in full with nothing raised;
any other creation failure is re-raised: exactly the rows before it
complete and the error aborts the invocation. -/
theorem c9_create_tag_error_policy (create_tag : Project → TagCreateOutcome)
    (rows pre post : List (Entry × Project)) (row : Entry × Project)
    (code : Nat) (msg : String)
    (hall : ∀ r ∈ rows, tag_outcome_continues (create_tag r.2) = true)
    (hpre : ∀ r ∈ pre, tag_outcome_continues (create_tag r.2) = true)
    (hrow : create_tag row.2 = TagCreateOutcome.createError code msg)
    (hbad : tag_error_is_benign code msg = false) :
    action_create_tag_loop create_tag rows = (rows, none) ∧
    action_create_tag_loop create_tag (pre ++ row :: post) =
      (pre, some (code, msg)) :=
  ⟨create_tag_loop_all_continue create_tag rows hall,
   create_tag_loop_abort create_tag row code msg hrow hbad pre post hpre⟩

/-- Witness for C9: a benign already-exists row completes; a 500 error
aborts after the rows before it. -/
theorem c9_create_tag_error_policy_witness :
    action_create_tag_loop
        (fun p => if p.path_with_namespace = "a"
          then TagCreateOutcome.createError 400 "Tag already exists"
          else TagCreateOutcome.createError 500 "boom")
        [([("login", "u")], ⟨"a"⟩)] = ([([("login", "u")], ⟨"a"⟩)], none) ∧
    action_create_tag_loop
        (fun p => if p.path_with_namespace = "a"
          then TagCreateOutcome.createError 400 "Tag already exists"
          else TagCreateOutcome.createError 500 "boom")
        ([([("login", "u")], ⟨"a"⟩)] ++ ([("login", "v")], ⟨"b"⟩) ::
          [([("login", "w")], ⟨"c"⟩)]) =
      ([([("login", "u")], ⟨"a"⟩)], some (500, "boom")) :=
  c9_create_tag_error_policy
    (fun p => if p.path_with_namespace = "a"
      then TagCreateOutcome.createError 400 "Tag already exists"
      else TagCreateOutcome.createError 500 "boom")
    [([("login", "u")], ⟨"a"⟩)] [([("login", "u")], ⟨"a"⟩)]
    [([("login", "w")], ⟨"c"⟩)] ([("login", "v")], ⟨"b"⟩) 500 "boom"
    (by decide) (by decide) (by decide) (by decide)

/-! ### action_deadline_commits helper lemma -/

theorem deadline_loop_all_ok (get_commit : Project → Except Unit Commit)
    (output_template : Template) :
    ∀ rows : List (Entry × Project),
      (∀ r ∈ rows, ∃ line,
        deadline_commit_row get_commit output_template r.1 r.2 = Except.ok line) →
      (action_deadline_commits_loop get_commit output_template rows).1.length =
        rows.length ∧
      (action_deadline_commits_loop get_commit output_template rows).2 = false := by
  intro rows
  induction rows with
  | nil => intro _; exact ⟨rfl, rfl⟩
  | cons r rest ih =>
    intro hok
    obtain ⟨line, hline⟩ := hok r (List.mem_cons_self r rest)
    have hrest : ∀ r2 ∈ rest, ∃ line2,
        deadline_commit_row get_commit output_template r2.1 r2.2 = Except.ok line2 :=
      fun r2 h2 => hok r2 (List.mem_cons_of_mem r h2)
    match r, hline with
    | (e, p), hline2 =>
      have := ih hrest
      simp only [action_deadline_commits_loop, hline2]
      simpa using this

/-- C10: when every output row formats successfully, the deadline-commit
loop emits exactly one output line per resolved (entry, project) pair and
does not abort; a row whose submission-commit lookup reports not-found is
formatted with the placeholder commit, whose id is the string of forty
zero characters. -/
theorem c10_deadline_placeholder_commit (get_commit : Project → Except Unit Commit)
    (output_template : Template) (rows : List (Entry × Project))
    (hok : ∀ r ∈ rows, ∃ line,
      deadline_commit_row get_commit output_template r.1 r.2 = Except.ok line) :
    (action_deadline_commits_loop get_commit output_template rows).1.length =
      rows.length ∧
    (action_deadline_commits_loop get_commit output_template rows).2 = false ∧
    (∀ r ∈ rows, get_commit r.2 = Except.error () →
      deadline_commit_row get_commit output_template r.1 r.2 =
        formatWithCommit output_template mock_commit r.1) ∧
    mock_commit.id = String.mk (List.replicate 40 (Char.ofNat 48)) := by
  obtain ⟨hlen, habort⟩ := deadline_loop_all_ok get_commit output_template rows hok
  refine ⟨hlen, habort, ?_, by decide⟩
  intro r _ hmiss
  simp [deadline_commit_row, hmiss]

/-- Witness for C10: one entry whose commit lookup reports not-found. -/
theorem c10_deadline_placeholder_commit_witness :
    (action_deadline_commits_loop (fun _ => Except.error ())
      [TItem.fieldAttr "commit" "id"] [([("login", "a")], ⟨"p"⟩)]).1.length =
      ([([("login", "a")], ⟨"p"⟩)] : List (Entry × Project)).length ∧
    (action_deadline_commits_loop (fun _ => Except.error ())
      [TItem.fieldAttr "commit" "id"] [([("login", "a")], ⟨"p"⟩)]).2 = false ∧
    (∀ r ∈ ([([("login", "a")], ⟨"p"⟩)] : List (Entry × Project)),
      (fun (_ : Project) => (Except.error () : Except Unit Commit)) r.2 =
          Except.error () →
      deadline_commit_row (fun _ => Except.error ())
          [TItem.fieldAttr "commit" "id"] r.1 r.2 =
        formatWithCommit [TItem.fieldAttr "commit" "id"] mock_commit r.1) ∧
    mock_commit.id = String.mk (List.replicate 40 (Char.ofNat 48)) :=
  c10_deadline_placeholder_commit (fun _ => Except.error ())
    [TItem.fieldAttr "commit" "id"] [([("login", "a")], ⟨"p"⟩)]
    (by
      intro r hr
      rw [List.mem_singleton] at hr
      subst hr
      exact ⟨"0000000000000000000000000000000000000000", rfl⟩)

end TeachersGitlab
